import Mathlib

/-!
Verification of the email-whitelist / invitation approval workflow of this
repository (service in `api/server/services/emailWhitelist.js`, schema in
`api/models/EmailWhitelist.js`, HTTP surface in the admin whitelist router,
registration gate in `api/server/middleware/validateRegistration.js`).

The persistent MongoDB collection is embedded as an in-memory list of
entries together with a counter supplying fresh ids (standing for fresh
ObjectIds).  Each service function becomes a pure function from the store to
a `(Result, Store)` pair.  Mongoose schema validation that fires on `save()`
(`required: true` on `email`, `maxlength: 500` on `reason`, `maxlength: 1000`
on `notes`) is embedded as the `validEntry` check: a failing `save()` throws,
the service's `catch` converts that into the generic failure result and the
database is left unchanged.  The invitation-dispatch step of a review
(`checkEmailConfig()` / `sendInvitationEmail`) touches only the token store
and the mail provider, never the whitelist collection, and its failure is
caught and logged inside `reviewEmailWhitelistRequest`; it is embedded as two
oracle booleans (`emailConfigured`, `emailSendFails`) so that independence of
the review result from the dispatch outcome is a statement, not an accident.
-/

namespace EmailWhitelist

/-- The `status` enum of `emailWhitelistSchema`: `['pending', 'approved', 'rejected']`. -/
inductive Status where
  | pending
  | approved
  | rejected
deriving DecidableEq, Repr

/-- String form of a status, as stored in MongoDB and compared by the
status filter of `getEmailWhitelistRequests`. -/
def Status.str : Status → String
  | .pending => "pending"
  | .approved => "approved"
  | .rejected => "rejected"

/-- One document of the `EmailWhitelist` collection (`emailWhitelistSchema`).
`id` stands for the Mongo `_id`; `reviewedBy` holds the admin user's id. -/
structure WhitelistEntry where
  id : Nat
  email : String
  status : Status
  reason : String
  requestedAt : Nat
  reviewedAt : Option Nat
  reviewedBy : Option Nat
  notes : String
deriving DecidableEq, Repr

/-- The `{ success, message, data? }` result object returned by the service
functions. -/
structure Result where
  success : Bool
  message : String
  data : Option WhitelistEntry
deriving DecidableEq, Repr

/-- The whitelist collection: its documents plus a fresh-id counter. -/
structure Store where
  entries : List WhitelistEntry
  nextId : Nat
deriving DecidableEq, Repr

def emptyStore : Store := ⟨[], 0⟩

/-- JS `email.toLowerCase().trim()`, the normalization applied by
`isEmailWhitelisted` and `requestEmailWhitelist` (and enforced at rest by the
schema's `lowercase: true, trim: true`): lowercase every character, then
drop leading and trailing whitespace. -/
def normalizeEmail (email : String) : String :=
  ⟨(((email.data.map Char.toLower).dropWhile Char.isWhitespace).reverse.dropWhile
      Char.isWhitespace).reverse⟩

/-- Mongoose schema validation run by `save()`: `email` is `required`
(rejects the empty string), `reason` has `maxlength: 500`, `notes` has
`maxlength: 1000`. -/
def validEntry (x : WhitelistEntry) : Prop :=
  x.email ≠ "" ∧ x.reason.length ≤ 500 ∧ x.notes.length ≤ 1000

instance : DecidablePred validEntry := fun x => by
  unfold validEntry; infer_instance

/-- Embedding of `requestEmailWhitelist(email, reason)` (submit).  `now` is the value of
`new Date()`.  Returns the result object and the store after the call. -/
def requestEmailWhitelist (s : Store) (email : String) (reason : String) (now : Nat) :
    Result × Store :=
  if email = "" then
    (⟨false, "Invalid email address", none⟩, s)
  else
    let normalizedEmail := normalizeEmail email
    match s.entries.find? (fun x => decide (x.email = normalizedEmail)) with
    | some existingEntry =>
      match existingEntry.status with
      | .approved => (⟨false, "Email is already approved for registration", none⟩, s)
      | .pending => (⟨false, "Email request is already pending approval", none⟩, s)
      | .rejected =>
        let updated : WhitelistEntry :=
          { existingEntry with
              status := .pending, requestedAt := now, reason := reason,
              reviewedAt := none, reviewedBy := none, notes := "" }
        if validEntry updated then
          (⟨true, "Email whitelist request has been resubmitted for review", some updated⟩,
           { s with entries :=
               s.entries.map (fun x => if x.id = existingEntry.id then updated else x) })
        else
          (⟨false, "Failed to submit whitelist request", none⟩, s)
    | none =>
      let whitelistRequest : WhitelistEntry :=
        { id := s.nextId, email := normalizedEmail, status := .pending, reason := reason,
          requestedAt := now, reviewedAt := none, reviewedBy := none, notes := "" }
      if validEntry whitelistRequest then
        (⟨true,
          "Email whitelist request submitted successfully. You will be notified when approved.",
          some whitelistRequest⟩,
         ⟨s.entries ++ [whitelistRequest], s.nextId + 1⟩)
      else
        (⟨false, "Failed to submit whitelist request", none⟩, s)

/-- Embedding of `isEmailWhitelisted(email)`.  `readFault = true` embeds a throwing
`findOne` store read: the `catch` logs and returns `false`, so no exception
ever escapes to the caller. -/
def isEmailWhitelisted (s : Store) (email : String) (readFault : Bool) : Bool :=
  if email = "" then false
  else if readFault then false
  else
    (s.entries.find?
      (fun x => decide (x.email = normalizeEmail email ∧ x.status = Status.approved))).isSome

/-- Embedding of `reviewEmailWhitelistRequest(requestId, action, adminUserId,
notes, sendInvitation)`.  `emailConfigured` is `checkEmailConfig()`;
`emailSendFails` says whether `sendInvitationEmail` would throw — that
exception is caught and only logged, so neither oracle occurs in the result
or the store update. -/
def reviewEmailWhitelistRequest (s : Store) (requestId : Nat) (action : String)
    (adminUserId : Nat) (notes : String) (sendInvitation : Bool) (now : Nat)
    (emailConfigured : Bool) (emailSendFails : Bool) : Result × Store :=
  if action ≠ "approve" ∧ action ≠ "reject" then
    (⟨false, "Invalid action. Must be approve or reject", none⟩, s)
  else
    match s.entries.find? (fun x => decide (x.id = requestId)) with
    | none => (⟨false, "Whitelist request not found", none⟩, s)
    | some whitelistRequest =>
      if whitelistRequest.status ≠ Status.pending then
        (⟨false, "Request has already been reviewed", none⟩, s)
      else
        let updated : WhitelistEntry :=
          { whitelistRequest with
              status := if action = "approve" then .approved else .rejected,
              reviewedAt := some now, reviewedBy := some adminUserId, notes := notes }
        if validEntry updated then
          let statusText := if action = "approve" then "approved" else "rejected"
          (⟨true,
            "Email whitelist request " ++ statusText ++ " successfully" ++
              (if action = "approve" ∧ sendInvitation then ". Invitation email sent." else ""),
            some updated⟩,
           { s with entries :=
               s.entries.map (fun x => if x.id = whitelistRequest.id then updated else x) })
        else
          (⟨false, "Failed to review whitelist request", none⟩, s)

/-- The mutation a successful review applies to the found entry:
`status`, `reviewedAt`, `reviewedBy`, `notes` as set by
`reviewEmailWhitelistRequest` before `save()`. -/
def reviewed (e : WhitelistEntry) (action : String) (adminUserId : Nat) (notes : String)
    (now : Nat) : WhitelistEntry :=
  { e with
      status := if action = "approve" then Status.approved else Status.rejected,
      reviewedAt := some now, reviewedBy := some adminUserId, notes := notes }

/-- Embedding of `deleteEmailWhitelistRequest(requestId)`: `findByIdAndDelete`. -/
def deleteEmailWhitelistRequest (s : Store) (requestId : Nat) : Result × Store :=
  match s.entries.find? (fun x => decide (x.id = requestId)) with
  | none => (⟨false, "Whitelist request not found", none⟩, s)
  | some _ =>
    (⟨true, "Email whitelist request deleted successfully", none⟩,
     { s with entries := s.entries.filter (fun x => decide (x.id ≠ requestId)) })

/-- Result shape of `getEmailWhitelistRequests`. -/
structure ListResult where
  requests : List WhitelistEntry
  total : Nat
  page : Nat
  limit : Nat
deriving DecidableEq, Repr

/-- Insertion step for `.sort({ requestedAt: -1 })` (descending). -/
def insertDesc (e : WhitelistEntry) : List WhitelistEntry → List WhitelistEntry
  | [] => [e]
  | x :: xs => if x.requestedAt ≤ e.requestedAt then e :: x :: xs else x :: insertDesc e xs

/-- Embedding of `.sort({ requestedAt: -1 })`: entries ordered by `requestedAt` descending. -/
def sortByRequestedAtDesc : List WhitelistEntry → List WhitelistEntry
  | [] => []
  | x :: xs => insertDesc x (sortByRequestedAtDesc xs)

/-- Embedding of `getEmailWhitelistRequests({ status, page, limit })`: filter by a valid
status string, sort by `requestedAt` descending, `skip((page-1)*limit)`,
`limit(limit)`, and count the filtered total.  MongoDB treats `limit(0)` as
"no limit", so a limit of 0 returns everything after the skip. -/
def getEmailWhitelistRequests (s : Store) (status : Option String) (page limit : Nat) :
    ListResult :=
  let matchesQuery : WhitelistEntry → Bool := fun e =>
    match status with
    | some st =>
      if st = "pending" ∨ st = "approved" ∨ st = "rejected" then decide (e.status.str = st)
      else true
    | none => true
  let filtered := s.entries.filter matchesQuery
  let sorted := sortByRequestedAtDesc filtered
  let afterSkip := sorted.drop ((page - 1) * limit)
  { requests := if limit = 0 then afterSkip else afterSkip.take limit,
    total := filtered.length, page := page, limit := limit }

/-- The `GET /whitelist-requests` handler: parses `page`/`limit` and calls the
service with `Math.min(parseInt(limit), 100)` — "Cap at 100 items per page".
A requested limit of 0 passes `Math.min(0, 100) = 0` through to `limit(0)`. -/
def listWhitelistHandler (s : Store) (status : Option String) (page limitReq : Nat) :
    ListResult :=
  getEmailWhitelistRequests s status page (min limitReq 100)

/-- One hundred and one whitelist entries with distinct ids and emails, all
requested at the same time. -/
def manyEntries : List WhitelistEntry :=
  (List.range 101).map
    (fun i => ⟨i, "user" ++ toString i ++ "@x.com", Status.pending, "", 0, none, none, ""⟩)

/-- A store holding 101 entries, used to exhibit the `limit(0)` behavior of
the list endpoint. -/
def bigStore : Store := ⟨manyEntries, 101⟩

/-- Inputs of `validateRegistration`: whether `req.invite` carries a valid
invite token, and the `PRIVATE_BETA_MODE` / `ALLOW_REGISTRATION` flags. -/
structure RegEnv where
  invite : Bool
  privateBetaMode : Bool
  allowRegistration : Bool
deriving DecidableEq, Repr

/-- Outcome of the registration gate: `next()` or a 403 with a message. -/
inductive GateOutcome where
  | allowed
  | denied (message : String)
deriving DecidableEq, Repr

/-- Embedding of `validateRegistration(req, res, next)` from
`api/server/middleware/validateRegistration.js`. -/
def validateRegistration (env : RegEnv) : GateOutcome :=
  if env.invite then .allowed
  else if env.privateBetaMode then
    .denied
      "Registration is currently by invitation only. Please contact an administrator for access."
  else if env.allowRegistration then .allowed
  else
    .denied
      "Registration is currently disabled. Please contact an administrator for access."

/-- One call against the whitelist store: the three mutating service
operations (`isEmailWhitelisted` and `getEmailWhitelistRequests` are reads). -/
inductive Op where
  | submit (email reason : String) (now : Nat)
  | review (requestId : Nat) (action : String) (adminUserId : Nat) (notes : String)
      (sendInvitation : Bool) (now : Nat) (emailConfigured emailSendFails : Bool)
  | delete (requestId : Nat)
deriving DecidableEq, Repr

/-- Store after one operation. -/
def applyOp (s : Store) : Op → Store
  | .submit e r n => (requestEmailWhitelist s e r n).2
  | .review id a u nt si n cfg f => (reviewEmailWhitelistRequest s id a u nt si n cfg f).2
  | .delete id => (deleteEmailWhitelistRequest s id).2

/-- Store reached by a sequence of operations from the empty collection. -/
def runOps (ops : List Op) : Store := ops.foldl applyOp emptyStore

/-- The status transitions the spec allows between a store state and its
successor, for one entry id: unchanged, `pending→approved`,
`pending→rejected`, or `rejected→pending` (resubmission). -/
def allowedChange (old new : Status) : Prop :=
  old = new ∨
  (old = Status.pending ∧ (new = Status.approved ∨ new = Status.rejected)) ∨
  (old = Status.rejected ∧ new = Status.pending)

instance : ∀ old new, Decidable (allowedChange old new) := fun old new => by
  unfold allowedChange; infer_instance

/-- Store invariant maintained by every operation: distinct ids, distinct
(normalized-at-rest) emails, ids below the fresh counter, no empty email. -/
def Inv (s : Store) : Prop :=
  s.entries.Pairwise (fun a b => a.id ≠ b.id) ∧
  s.entries.Pairwise (fun a b => a.email ≠ b.email) ∧
  (∀ e ∈ s.entries, e.id < s.nextId) ∧
  (∀ e ∈ s.entries, validEntry e)

/-! ### Helper lemmas -/

theorem eq_of_key_pairwise {α : Type} {key : WhitelistEntry → α} {l : List WhitelistEntry}
    (hpw : l.Pairwise (fun a b => key a ≠ key b)) {a b : WhitelistEntry}
    (ha : a ∈ l) (hb : b ∈ l) (h : key a = key b) : a = b := by
  induction l with
  | nil => cases ha
  | cons x xs ih =>
    rcases List.pairwise_cons.mp hpw with ⟨hx, hxs⟩
    rcases List.mem_cons.mp ha with rfl | ha'
    · rcases List.mem_cons.mp hb with rfl | hbid
      · rfl
      · exact absurd h (hx _ hbid)
    · rcases List.mem_cons.mp hb with rfl | hbid
      · exact absurd h.symm (hx _ ha')
      · exact ih hxs ha' hbid

theorem find?_key_unique {α : Type} [DecidableEq α] {key : WhitelistEntry → α}
    {l : List WhitelistEntry} (hpw : l.Pairwise (fun a b => key a ≠ key b))
    {e : WhitelistEntry} (he : e ∈ l) {k : α} (hk : key e = k) :
    l.find? (fun x => decide (key x = k)) = some e := by
  induction l with
  | nil => cases he
  | cons x xs ih =>
    rcases List.pairwise_cons.mp hpw with ⟨hx, hxs⟩
    rcases List.mem_cons.mp he with rfl | he'
    · exact List.find?_cons_of_pos _ (by simpa using hk)
    · have hne : key x ≠ k := fun hxk => hx e he' (hxk.trans hk.symm)
      rw [List.find?_cons_of_neg _ (by simpa using hne)]
      exact ih hxs he'

theorem pairwise_map_update {α : Type} {key : WhitelistEntry → α}
    {l : List WhitelistEntry} (hid : l.Pairwise (fun a b => a.id ≠ b.id))
    (hkey : l.Pairwise (fun a b => key a ≠ key b))
    {t u : WhitelistEntry} (ht : t ∈ l) (hu : key u = key t) :
    (l.map (fun x => if x.id = t.id then u else x)).Pairwise (fun a b => key a ≠ key b) := by
  rw [List.pairwise_map]
  refine hkey.imp_of_mem ?_
  intro a b ha hb hne
  by_cases haid : a.id = t.id
  · have hat : a = t := eq_of_key_pairwise hid ha ht haid
    by_cases hbid : b.id = t.id
    · have hbt : b = t := eq_of_key_pairwise hid hb ht hbid
      exact absurd (by rw [hat, hbt]) hne
    · simpa [haid, hbid, hu, hat] using hne
  · by_cases hbid : b.id = t.id
    · have hbt : b = t := eq_of_key_pairwise hid hb ht hbid
      simpa [haid, hbid, hu, hbt] using hne
    · simpa [haid, hbid] using hne

theorem map_update_key_mem {l : List WhitelistEntry} {t u : WhitelistEntry}
    {e' : WhitelistEntry}
    (he' : e' ∈ l.map (fun x => if x.id = t.id then u else x)) :
    e' = u ∨ e' ∈ l := by
  obtain ⟨x, _, hex⟩ := List.mem_map.mp he'
  by_cases hxid : x.id = t.id
  · left; rw [← hex, if_pos hxid]
  · right; rw [← hex, if_neg hxid]; assumption

theorem inv_empty : Inv emptyStore := by
  refine ⟨List.Pairwise.nil, List.Pairwise.nil, ?_, ?_⟩ <;> intro e he <;> cases he

theorem inv_map_update (s : Store) (hinv : Inv s) {target u : WhitelistEntry}
    (hmem : target ∈ s.entries) (huid : u.id = target.id) (huem : u.email = target.email)
    (huv : validEntry u) :
    Inv { s with entries := s.entries.map (fun x => if x.id = target.id then u else x) } := by
  obtain ⟨hid, hem, hlt, hne⟩ := hinv
  refine ⟨pairwise_map_update hid hid hmem huid, pairwise_map_update hid hem hmem huem,
    ?_, ?_⟩
  · intro e' he'
    rcases map_update_key_mem he' with rfl | h
    · rw [huid]; exact hlt target hmem
    · exact hlt _ h
  · intro e' he'
    rcases map_update_key_mem he' with rfl | h
    · exact huv
    · exact hne _ h

theorem inv_submit (s : Store) (hinv : Inv s) (email reason : String) (now : Nat) :
    Inv (requestEmailWhitelist s email reason now).2 := by
  obtain ⟨hid, hem, hlt, hne⟩ := hinv
  simp only [requestEmailWhitelist]
  split
  · exact ⟨hid, hem, hlt, hne⟩
  split
  next existing hfind =>
    split
    · exact ⟨hid, hem, hlt, hne⟩
    · exact ⟨hid, hem, hlt, hne⟩
    · split
      next hvalid =>
        exact inv_map_update s ⟨hid, hem, hlt, hne⟩
          (List.mem_of_find?_eq_some hfind) rfl rfl hvalid
      next => exact ⟨hid, hem, hlt, hne⟩
  next hfind =>
    split
    next hvalid =>
      refine ⟨?_, ?_, ?_, ?_⟩
      · rw [List.pairwise_append]
        refine ⟨hid, List.pairwise_singleton _ _, ?_⟩
        intro a ha b hb
        rw [List.mem_singleton] at hb
        subst hb
        exact Nat.ne_of_lt (hlt a ha)
      · rw [List.pairwise_append]
        refine ⟨hem, List.pairwise_singleton _ _, ?_⟩
        intro a ha b hb
        rw [List.mem_singleton] at hb
        subst hb
        simpa using List.find?_eq_none.mp hfind a ha
      · intro e' he'
        rcases List.mem_append.mp he' with h | h
        · exact Nat.lt_succ_of_lt (hlt _ h)
        · rw [List.mem_singleton] at h; subst h; exact Nat.lt_succ_self _
      · intro e' he'
        rcases List.mem_append.mp he' with h | h
        · exact hne _ h
        · rw [List.mem_singleton] at h; subst h; exact hvalid
    next => exact ⟨hid, hem, hlt, hne⟩

theorem inv_review (s : Store) (hinv : Inv s) (requestId : Nat) (action : String)
    (adminUserId : Nat) (notes : String) (sendInvitation : Bool) (now : Nat)
    (cfg fl : Bool) :
    Inv (reviewEmailWhitelistRequest s requestId action adminUserId notes
      sendInvitation now cfg fl).2 := by
  obtain ⟨hid, hem, hlt, hne⟩ := hinv
  simp only [reviewEmailWhitelistRequest]
  split
  · exact ⟨hid, hem, hlt, hne⟩
  split
  · exact ⟨hid, hem, hlt, hne⟩
  next target hfind =>
    split
    · exact ⟨hid, hem, hlt, hne⟩
    split
    · split
      next hvalid =>
        exact inv_map_update s ⟨hid, hem, hlt, hne⟩
          (List.mem_of_find?_eq_some hfind) rfl rfl hvalid
      next => exact ⟨hid, hem, hlt, hne⟩
    · split
      next hvalid =>
        exact inv_map_update s ⟨hid, hem, hlt, hne⟩
          (List.mem_of_find?_eq_some hfind) rfl rfl hvalid
      next => exact ⟨hid, hem, hlt, hne⟩

theorem inv_delete (s : Store) (hinv : Inv s) (requestId : Nat) :
    Inv (deleteEmailWhitelistRequest s requestId).2 := by
  obtain ⟨hid, hem, hlt, hne⟩ := hinv
  simp only [deleteEmailWhitelistRequest]
  split
  · exact ⟨hid, hem, hlt, hne⟩
  · refine ⟨List.Pairwise.sublist (List.filter_sublist _) hid,
      List.Pairwise.sublist (List.filter_sublist _) hem, ?_, ?_⟩
    · intro e' he'
      exact hlt _ (List.mem_filter.mp he').1
    · intro e' he'
      exact hne _ (List.mem_filter.mp he').1

theorem inv_applyOp (s : Store) (hinv : Inv s) (op : Op) : Inv (applyOp s op) := by
  cases op with
  | submit e r n => exact inv_submit s hinv e r n
  | review id a u nt si n cfg f => exact inv_review s hinv id a u nt si n cfg f
  | delete id => exact inv_delete s hinv id

theorem inv_foldl (ops : List Op) (s : Store) (hinv : Inv s) :
    Inv (ops.foldl applyOp s) := by
  induction ops generalizing s with
  | nil => exact hinv
  | cons op rest ih => exact ih (applyOp s op) (inv_applyOp s hinv op)

theorem inv_runOps (ops : List Op) : Inv (runOps ops) :=
  inv_foldl ops emptyStore inv_empty

theorem step_goal_of_mem (s : Store) (hinv : Inv s) (e' : WhitelistEntry)
    (he' : e' ∈ s.entries) :
    (∀ e ∈ s.entries, e.id = e'.id → allowedChange e.status e'.status) ∧
    ((∀ e ∈ s.entries, e.id ≠ e'.id) → e'.status = Status.pending) := by
  constructor
  · intro e he hide
    have heq : e = e' := eq_of_key_pairwise hinv.1 he he' hide
    subst heq
    exact Or.inl rfl
  · intro h
    exact absurd rfl (h e' he')

theorem step_goal_of_map_update (s : Store) (hinv : Inv s)
    {target u : WhitelistEntry} (htar : target ∈ s.entries) (e' : WhitelistEntry)
    (he' : e' ∈ s.entries.map (fun x => if x.id = target.id then u else x))
    (huid : u.id = target.id)
    (hallow : allowedChange target.status u.status) :
    (∀ e ∈ s.entries, e.id = e'.id → allowedChange e.status e'.status) ∧
    ((∀ e ∈ s.entries, e.id ≠ e'.id) → e'.status = Status.pending) := by
  rcases map_update_key_mem he' with rfl | h
  · constructor
    · intro e he hide
      have heq : e = target := eq_of_key_pairwise hinv.1 he htar (hide.trans huid)
      subst heq
      exact hallow
    · intro h
      exact absurd huid.symm (h target htar)
  · exact step_goal_of_mem s hinv e' h

theorem step_closure (s : Store) (hinv : Inv s) (op : Op) (e' : WhitelistEntry)
    (he' : e' ∈ (applyOp s op).entries) :
    (∀ e ∈ s.entries, e.id = e'.id → allowedChange e.status e'.status) ∧
    ((∀ e ∈ s.entries, e.id ≠ e'.id) → e'.status = Status.pending) := by
  obtain ⟨hid, hem, hlt, hne⟩ := hinv
  cases op with
  | submit email reason now =>
    simp only [applyOp, requestEmailWhitelist] at he'
    split at he'
    · exact step_goal_of_mem s ⟨hid, hem, hlt, hne⟩ e' he'
    split at he'
    next existing hfind =>
      split at he'
      · exact step_goal_of_mem s ⟨hid, hem, hlt, hne⟩ e' he'
      · exact step_goal_of_mem s ⟨hid, hem, hlt, hne⟩ e' he'
      next hst =>
        split at he'
        next hvalid =>
          refine step_goal_of_map_update s ⟨hid, hem, hlt, hne⟩
            (List.mem_of_find?_eq_some hfind) e' he' rfl ?_
          exact Or.inr (Or.inr ⟨hst, rfl⟩)
        next => exact step_goal_of_mem s ⟨hid, hem, hlt, hne⟩ e' he'
    next hfind =>
      split at he'
      next hvalid =>
        rcases List.mem_append.mp he' with h | h
        · exact step_goal_of_mem s ⟨hid, hem, hlt, hne⟩ e' h
        · rw [List.mem_singleton] at h
          subst h
          constructor
          · intro e he hide
            exact absurd hide (Nat.ne_of_lt (hlt e he))
          · intro _
            rfl
      next => exact step_goal_of_mem s ⟨hid, hem, hlt, hne⟩ e' he'
  | review requestId action adminUserId notes si now cfg fl =>
    simp only [applyOp, reviewEmailWhitelistRequest] at he'
    split at he'
    · exact step_goal_of_mem s ⟨hid, hem, hlt, hne⟩ e' he'
    split at he'
    · exact step_goal_of_mem s ⟨hid, hem, hlt, hne⟩ e' he'
    next target hfind =>
      split at he'
      · exact step_goal_of_mem s ⟨hid, hem, hlt, hne⟩ e' he'
      next hpend =>
        split at he'
        next hact =>
          split at he'
          next hvalid =>
            refine step_goal_of_map_update s ⟨hid, hem, hlt, hne⟩
              (List.mem_of_find?_eq_some hfind) e' he' rfl ?_
            exact Or.inr (Or.inl ⟨not_not.mp hpend, Or.inl rfl⟩)
          next => exact step_goal_of_mem s ⟨hid, hem, hlt, hne⟩ e' he'
        next hact =>
          split at he'
          next hvalid =>
            refine step_goal_of_map_update s ⟨hid, hem, hlt, hne⟩
              (List.mem_of_find?_eq_some hfind) e' he' rfl ?_
            exact Or.inr (Or.inl ⟨not_not.mp hpend, Or.inr rfl⟩)
          next => exact step_goal_of_mem s ⟨hid, hem, hlt, hne⟩ e' he'
  | delete requestId =>
    simp only [applyOp, deleteEmailWhitelistRequest] at he'
    split at he'
    · exact step_goal_of_mem s ⟨hid, hem, hlt, hne⟩ e' he'
    · exact step_goal_of_mem s ⟨hid, hem, hlt, hne⟩ e' (List.mem_filter.mp he').1

theorem filter_key_unique {α : Type} {key : WhitelistEntry → α} [DecidableEq α]
    {l : List WhitelistEntry} (hpw : l.Pairwise (fun a b => key a ≠ key b))
    {e : WhitelistEntry} (he : e ∈ l) {k : α} (hk : key e = k) :
    l.filter (fun x => decide (key x = k)) = [e] := by
  induction l with
  | nil => cases he
  | cons x xs ih =>
    rcases List.pairwise_cons.mp hpw with ⟨hx, hxs⟩
    rcases List.mem_cons.mp he with rfl | he'
    · rw [List.filter_cons_of_pos (by simpa using hk)]
      have hnil : xs.filter (fun x => decide (key x = k)) = [] := by
        rw [List.filter_eq_nil_iff]
        intro y hy
        simp only [decide_eq_true_eq]
        intro h
        exact hx y hy (hk.trans h.symm)
      rw [hnil]
    · have hne : key x ≠ k := fun hxk => hx e he' (hxk.trans hk.symm)
      rw [List.filter_cons_of_neg (by simpa using hne)]
      exact ih hxs he'

theorem find?_isSome_of_mem {p : WhitelistEntry → Prop} [DecidablePred p]
    {l : List WhitelistEntry} {x : WhitelistEntry} (hx : x ∈ l) (hpx : p x) :
    (l.find? (fun y => decide (p y))).isSome = true := by
  induction l with
  | nil => cases hx
  | cons a as ih =>
    by_cases hpa : p a
    · rw [List.find?_cons_of_pos _ (by simpa using hpa)]
      rfl
    · rw [List.find?_cons_of_neg _ (by simpa using hpa)]
      rcases List.mem_cons.mp hx with rfl | hx'
      · exact absurd hpx hpa
      · exact ih hx'

theorem review_not_found (s : Store) {requestId : Nat} {action : String}
    (adminUserId : Nat) (notes : String) (si : Bool) (now : Nat) (cfg fl : Bool)
    (hfind : s.entries.find? (fun x => decide (x.id = requestId)) = none)
    (ha : action = "approve" ∨ action = "reject") :
    reviewEmailWhitelistRequest s requestId action adminUserId notes si now cfg fl =
      (⟨false, "Whitelist request not found", none⟩, s) := by
  have ha' : ¬(action ≠ "approve" ∧ action ≠ "reject") := by
    rcases ha with rfl | rfl <;> simp
  simp only [reviewEmailWhitelistRequest, hfind]
  rw [if_neg ha']

theorem review_already_reviewed (s : Store) {requestId : Nat} {action : String}
    (adminUserId : Nat) (notes : String) (si : Bool) (now : Nat) (cfg fl : Bool)
    {e : WhitelistEntry}
    (hfind : s.entries.find? (fun x => decide (x.id = requestId)) = some e)
    (hst : e.status ≠ Status.pending)
    (ha : action = "approve" ∨ action = "reject") :
    reviewEmailWhitelistRequest s requestId action adminUserId notes si now cfg fl =
      (⟨false, "Request has already been reviewed", none⟩, s) := by
  have ha' : ¬(action ≠ "approve" ∧ action ≠ "reject") := by
    rcases ha with rfl | rfl <;> simp
  simp only [reviewEmailWhitelistRequest, hfind]
  rw [if_neg ha', if_pos hst]

theorem review_pending_spec (s : Store) (hinv : Inv s) (requestId : Nat) (action : String)
    (adminUserId : Nat) (notes : String) (si : Bool) (now : Nat) (cfg fl : Bool)
    (e : WhitelistEntry) (he : e ∈ s.entries) (hid : e.id = requestId)
    (hpend : e.status = Status.pending) (hn : notes.length ≤ 1000)
    (ha : action = "approve" ∨ action = "reject") :
    reviewEmailWhitelistRequest s requestId action adminUserId notes si now cfg fl =
      (⟨true,
        "Email whitelist request " ++ (if action = "approve" then "approved" else "rejected") ++
          " successfully" ++
          (if action = "approve" ∧ si then ". Invitation email sent." else ""),
        some (reviewed e action adminUserId notes now)⟩,
       { s with
           entries :=
             s.entries.map
               (fun x => if x.id = e.id then reviewed e action adminUserId notes now else x) }) := by
  have hfind : s.entries.find? (fun x => decide (x.id = requestId)) = some e :=
    find?_key_unique hinv.1 he hid
  have hvalid : validEntry (reviewed e action adminUserId notes now) :=
    ⟨(hinv.2.2.2 e he).1, (hinv.2.2.2 e he).2.1, hn⟩
  rcases ha with rfl | rfl <;>
    simp [reviewed] at hvalid <;>
    simp [reviewEmailWhitelistRequest, hfind, hpend, hvalid, reviewed]

theorem review_validation_fails (s : Store) (hinv : Inv s) {requestId : Nat}
    {action : String} {adminUserId : Nat} {notes : String} (si : Bool) (now : Nat)
    (cfg fl : Bool) (e : WhitelistEntry) (he : e ∈ s.entries) (hid : e.id = requestId)
    (hpend : e.status = Status.pending)
    (ha : action = "approve" ∨ action = "reject")
    (hbad : ¬ validEntry (reviewed e action adminUserId notes now)) :
    reviewEmailWhitelistRequest s requestId action adminUserId notes si now cfg fl =
      (⟨false, "Failed to review whitelist request", none⟩, s) := by
  have hfind : s.entries.find? (fun x => decide (x.id = requestId)) = some e :=
    find?_key_unique hinv.1 he hid
  rcases ha with rfl | rfl <;>
    simp [reviewEmailWhitelistRequest, hfind, hpend, reviewed] at hbad ⊢ <;>
    simp [hbad]

/-! ### Claim theorems -/

/-- Claim C1: state-machine closure.  For every reachable store and every
further submit/review/delete operation, an entry surviving the step either
keeps its status or moves along `pending→approved`, `pending→rejected`, or
`rejected→pending` (`allowedChange`), and an entry that is new in the step
(its id matched nothing before) has status `pending`.  In particular an
approved entry's status never changes. -/
theorem whitelist_state_machine_closure (ops : List Op) (op : Op) (e' : WhitelistEntry)
    (he' : e' ∈ (applyOp (runOps ops) op).entries) :
    (∀ e ∈ (runOps ops).entries, e.id = e'.id → allowedChange e.status e'.status) ∧
    ((∀ e ∈ (runOps ops).entries, e.id ≠ e'.id) → e'.status = Status.pending) :=
  step_closure (runOps ops) (inv_runOps ops) op e' he'

/-- Witness for C1: a pending entry approved by a review makes a
`pending→approved` step. -/
theorem whitelist_state_machine_closure_witness :
    (∀ e ∈ (runOps [Op.submit "a@x.com" "" 0]).entries,
        e.id = 0 → allowedChange e.status Status.approved) ∧
    ((∀ e ∈ (runOps [Op.submit "a@x.com" "" 0]).entries, e.id ≠ 0) →
        Status.approved = Status.pending) :=
  whitelist_state_machine_closure [Op.submit "a@x.com" "" 0]
    (Op.review 0 "approve" 7 "ok" true 1 true false)
    ⟨0, "a@x.com", Status.approved, "", 0, some 1, some 7, "ok"⟩ (by decide)

/-- Claim C7: uniqueness.  After any sequence of submit/review/delete
operations, the store holds at most one entry per email (emails are stored
normalized, so this is at most one entry per normalized email). -/
theorem whitelist_email_uniqueness (ops : List Op) (e₁ e₂ : WhitelistEntry)
    (h₁ : e₁ ∈ (runOps ops).entries) (h₂ : e₂ ∈ (runOps ops).entries)
    (he : e₁.email = e₂.email) : e₁ = e₂ :=
  eq_of_key_pairwise (inv_runOps ops).2.1 h₁ h₂ he

/-- Witness for C7 at a two-operation run. -/
theorem whitelist_email_uniqueness_witness :
    (⟨0, "a@x.com", Status.pending, "hi", 3, none, none, ""⟩ : WhitelistEntry) =
      ⟨0, "a@x.com", Status.pending, "hi", 3, none, none, ""⟩ :=
  whitelist_email_uniqueness
    [Op.submit "a@x.com" "" 0, Op.review 0 "reject" 7 "no" true 1 true false,
     Op.submit " A@X.com " "hi" 3]
    ⟨0, "a@x.com", Status.pending, "hi", 3, none, none, ""⟩
    ⟨0, "a@x.com", Status.pending, "hi", 3, none, none, ""⟩
    (by decide) (by decide) rfl

/-- Claim C2: duplicate submissions fail without mutation.  If the store
already holds an approved entry for the normalized email, `submit` fails
with "Email is already approved for registration" and leaves the store
unchanged; if it holds a pending entry, `submit` fails with "Email request
is already pending approval", leaves the store unchanged, and the store
still holds exactly one entry for that email. -/
theorem submit_duplicate_fails (s : Store) (hinv : Inv s) (email reason : String)
    (now : Nat) (e : WhitelistEntry) (he : e ∈ s.entries)
    (hem : e.email = normalizeEmail email) :
    (e.status = Status.approved →
      requestEmailWhitelist s email reason now =
        (⟨false, "Email is already approved for registration", none⟩, s)) ∧
    (e.status = Status.pending →
      requestEmailWhitelist s email reason now =
        (⟨false, "Email request is already pending approval", none⟩, s) ∧
      ((requestEmailWhitelist s email reason now).2.entries.filter
          (fun x => decide (x.email = normalizeEmail email))).length = 1) := by
  have hemail : ¬ email = "" := by
    intro h
    subst h
    exact (hinv.2.2.2 e he).1 (hem.trans (by decide))
  have hfind : s.entries.find? (fun x => decide (x.email = normalizeEmail email)) = some e :=
    find?_key_unique hinv.2.1 he hem
  constructor
  · intro hst
    simp [requestEmailWhitelist, hemail, hfind, hst]
  · intro hst
    have hcall : requestEmailWhitelist s email reason now =
        (⟨false, "Email request is already pending approval", none⟩, s) := by
      simp [requestEmailWhitelist, hemail, hfind, hst]
    refine ⟨hcall, ?_⟩
    rw [hcall]
    exact congrArg List.length (filter_key_unique hinv.2.1 he hem)

/-- Witness for C2: a second submit for a pending email fails and the store
keeps exactly one entry for it. -/
theorem submit_duplicate_fails_witness :
    (requestEmailWhitelist (runOps [Op.submit "a@x.com" "" 0]) "a@x.com" "again" 3 =
      (⟨false, "Email request is already pending approval", none⟩,
       runOps [Op.submit "a@x.com" "" 0]) ∧
    ((requestEmailWhitelist (runOps [Op.submit "a@x.com" "" 0]) "a@x.com" "again" 3).2.entries.filter
        (fun x => decide (x.email = normalizeEmail "a@x.com"))).length = 1) :=
  (submit_duplicate_fails (runOps [Op.submit "a@x.com" "" 0]) (inv_runOps _)
      "a@x.com" "again" 3 ⟨0, "a@x.com", Status.pending, "", 0, none, none, ""⟩
      (by decide) (by decide)).2 (by decide)

/-- Claim C3: resubmission of a rejected entry succeeds, resets the entry
back to `pending`, clears `reviewedAt`, `reviewedBy` and `notes`, sets
`requestedAt` to the current time and `reason` to the new reason, and
mutates the same entry (same id) in place — no new entry, `nextId`
untouched. -/
theorem submit_resubmission_resets (s : Store) (hinv : Inv s) (email reason : String)
    (now : Nat) (e : WhitelistEntry) (he : e ∈ s.entries)
    (hem : e.email = normalizeEmail email) (hst : e.status = Status.rejected)
    (hreason : reason.length ≤ 500) :
    requestEmailWhitelist s email reason now =
      (⟨true, "Email whitelist request has been resubmitted for review",
        some { e with
            status := Status.pending, requestedAt := now, reason := reason,
            reviewedAt := none, reviewedBy := none, notes := "" }⟩,
       { s with
           entries :=
             s.entries.map
               (fun x =>
                 if x.id = e.id then
                   { e with
                       status := Status.pending, requestedAt := now, reason := reason,
                       reviewedAt := none, reviewedBy := none, notes := "" }
                 else x) }) := by
  have hemail : ¬ email = "" := by
    intro h
    subst h
    exact (hinv.2.2.2 e he).1 (hem.trans (by decide))
  have hfind : s.entries.find? (fun x => decide (x.email = normalizeEmail email)) = some e :=
    find?_key_unique hinv.2.1 he hem
  have hvalid : validEntry { e with
      status := Status.pending, requestedAt := now, reason := reason,
      reviewedAt := none, reviewedBy := none, notes := "" } :=
    ⟨(hinv.2.2.2 e he).1, hreason, (by decide : ("" : String).length ≤ 1000)⟩
  simp [requestEmailWhitelist, hemail, hfind, hst, hvalid]

/-- Witness for C3: resubmitting after a rejection resets the same entry. -/
theorem submit_resubmission_resets_witness :
    requestEmailWhitelist
      (runOps [Op.submit "a@x.com" "r1" 0, Op.review 0 "reject" 7 "no" true 1 true false])
      "a@x.com" "please reconsider" 5 =
      (⟨true, "Email whitelist request has been resubmitted for review",
        some ⟨0, "a@x.com", Status.pending, "please reconsider", 5, none, none, ""⟩⟩,
       { runOps [Op.submit "a@x.com" "r1" 0, Op.review 0 "reject" 7 "no" true 1 true false] with
           entries :=
             (runOps [Op.submit "a@x.com" "r1" 0,
               Op.review 0 "reject" 7 "no" true 1 true false]).entries.map
               (fun x =>
                 if x.id = 0 then
                   ⟨0, "a@x.com", Status.pending, "please reconsider", 5, none, none, ""⟩
                 else x) }) :=
  submit_resubmission_resets
    (runOps [Op.submit "a@x.com" "r1" 0, Op.review 0 "reject" 7 "no" true 1 true false])
    (inv_runOps _) "a@x.com" "please reconsider" 5
    ⟨0, "a@x.com", Status.rejected, "r1", 0, some 1, some 7, "no"⟩
    (by decide) (by decide) (by decide) (by decide)

/-- Claim C4: review guards.  With a valid action, `review` fails without
mutation when no entry has the request id ("Whitelist request not found") or
when the entry is not pending ("Request has already been reviewed"); and if
a first review call succeeds, a second review call on the same id fails
with the state-conflict result and leaves the store as the first call left
it. -/
theorem review_guards (s : Store) (hinv : Inv s)
    (requestId adminUserId adminUserId₂ : Nat) (action action₂ notes notes₂ : String)
    (si si₂ : Bool) (now now₂ : Nat) (cfg fl cfg₂ fl₂ : Bool)
    (ha : action = "approve" ∨ action = "reject")
    (ha₂ : action₂ = "approve" ∨ action₂ = "reject") :
    ((∀ e ∈ s.entries, e.id ≠ requestId) →
      reviewEmailWhitelistRequest s requestId action adminUserId notes si now cfg fl =
        (⟨false, "Whitelist request not found", none⟩, s)) ∧
    (∀ e ∈ s.entries, e.id = requestId → e.status ≠ Status.pending →
      reviewEmailWhitelistRequest s requestId action adminUserId notes si now cfg fl =
        (⟨false, "Request has already been reviewed", none⟩, s)) ∧
    ((reviewEmailWhitelistRequest s requestId action adminUserId notes si now cfg fl).1.success
        = true →
      reviewEmailWhitelistRequest
        (reviewEmailWhitelistRequest s requestId action adminUserId notes si now cfg fl).2
        requestId action₂ adminUserId₂ notes₂ si₂ now₂ cfg₂ fl₂ =
        (⟨false, "Request has already been reviewed", none⟩,
         (reviewEmailWhitelistRequest s requestId action adminUserId notes si now cfg fl).2)) := by
  refine ⟨?_, ?_, ?_⟩
  · intro hmiss
    have hfind : s.entries.find? (fun x => decide (x.id = requestId)) = none := by
      rw [List.find?_eq_none]
      intro x hx
      simpa using hmiss x hx
    exact review_not_found s adminUserId notes si now cfg fl hfind ha
  · intro e he hide hst
    have hfind : s.entries.find? (fun x => decide (x.id = requestId)) = some e :=
      find?_key_unique hinv.1 he hide
    exact review_already_reviewed s adminUserId notes si now cfg fl hfind hst ha
  · intro hsucc
    by_cases hex : ∃ e ∈ s.entries, e.id = requestId
    · obtain ⟨e, he, hide⟩ := hex
      by_cases hpend : e.status = Status.pending
      · by_cases hval : validEntry (reviewed e action adminUserId notes now)
        · have hspec := review_pending_spec s hinv requestId action adminUserId notes si now
            cfg fl e he hide hpend hval.2.2 ha
          have hinv' := inv_review s hinv requestId action adminUserId notes si now cfg fl
          have hmem' : reviewed e action adminUserId notes now ∈
              (reviewEmailWhitelistRequest s requestId action adminUserId notes si now
                cfg fl).2.entries := by
            rw [hspec]
            exact List.mem_map.mpr ⟨e, he, if_pos rfl⟩
          have hfind' := find?_key_unique hinv'.1 hmem' hide
          have hstat : (reviewed e action adminUserId notes now).status ≠ Status.pending := by
            rcases ha with rfl | rfl <;> simp [reviewed]
          exact review_already_reviewed _ adminUserId₂ notes₂ si₂ now₂ cfg₂ fl₂ hfind' hstat ha₂
        · rw [review_validation_fails s hinv si now cfg fl e he hide hpend ha hval] at hsucc
          cases hsucc
      · rw [review_already_reviewed s adminUserId notes si now cfg fl
          (find?_key_unique hinv.1 he hide) hpend ha] at hsucc
        cases hsucc
    · push_neg at hex
      have hfind : s.entries.find? (fun x => decide (x.id = requestId)) = none := by
        rw [List.find?_eq_none]
        intro x hx
        simpa using hex x hx
      rw [review_not_found s adminUserId notes si now cfg fl hfind ha] at hsucc
      cases hsucc

/-- Witness for C4: the second review of an already-approved request fails
with the state-conflict result and changes nothing. -/
theorem review_guards_witness :
    reviewEmailWhitelistRequest
      (reviewEmailWhitelistRequest (runOps [Op.submit "a@x.com" "" 0])
        0 "approve" 7 "ok" true 1 true false).2
      0 "reject" 8 "nope" true 2 true false =
      (⟨false, "Request has already been reviewed", none⟩,
       (reviewEmailWhitelistRequest (runOps [Op.submit "a@x.com" "" 0])
         0 "approve" 7 "ok" true 1 true false).2) :=
  (review_guards (runOps [Op.submit "a@x.com" "" 0]) (inv_runOps _) 0 7 8
      "approve" "reject" "ok" "nope" true true 1 2 true false true false
      (Or.inl rfl) (Or.inr rfl)).2.2 (by decide)

/-- Claim C5: approval side-effect isolation.  Reviewing a pending entry
with `approve` and `sendInvitation = true` while the invitation dispatch
fails (`emailSendFails = true`) still returns success, leaves the entry
persisted as approved, and a subsequent `isEmailWhitelisted` on its email
returns true. -/
theorem approval_side_effect_isolation (s : Store) (hinv : Inv s)
    (requestId adminUserId : Nat) (notes : String) (now : Nat)
    (e : WhitelistEntry) (he : e ∈ s.entries) (hid : e.id = requestId)
    (hpend : e.status = Status.pending) (hn : notes.length ≤ 1000)
    (q : String) (hq : normalizeEmail q = e.email) :
    (reviewEmailWhitelistRequest s requestId "approve" adminUserId notes true now
        true true).1.success = true ∧
    (∃ e' ∈ (reviewEmailWhitelistRequest s requestId "approve" adminUserId notes true now
        true true).2.entries,
      e'.id = e.id ∧ e'.status = Status.approved ∧ e'.email = e.email) ∧
    isEmailWhitelisted
      (reviewEmailWhitelistRequest s requestId "approve" adminUserId notes true now
        true true).2 q false = true := by
  have hspec := review_pending_spec s hinv requestId "approve" adminUserId notes true now
    true true e he hid hpend hn (Or.inl rfl)
  have hq0 : ¬ q = "" := by
    intro h
    subst h
    exact (hinv.2.2.2 e he).1 (hq.symm.trans (by decide))
  refine ⟨by rw [hspec], ?_, ?_⟩
  · rw [hspec]
    exact ⟨reviewed e "approve" adminUserId notes now,
      List.mem_map.mpr ⟨e, he, if_pos rfl⟩, rfl, by simp [reviewed], rfl⟩
  · rw [hspec]
    simp only [isEmailWhitelisted, if_neg hq0]
    rw [if_neg Bool.false_ne_true]
    exact find?_isSome_of_mem (List.mem_map.mpr ⟨e, he, if_pos rfl⟩)
      ⟨hq.symm, by simp [reviewed]⟩

/-- Witness for C5: approving a pending request with a failing email
dispatch still persists the approval and flips the registration gate. -/
theorem approval_side_effect_isolation_witness :
    (reviewEmailWhitelistRequest (runOps [Op.submit "a@x.com" "" 0])
        0 "approve" 7 "ok" true 1 true true).1.success = true ∧
    (∃ e' ∈ (reviewEmailWhitelistRequest (runOps [Op.submit "a@x.com" "" 0])
        0 "approve" 7 "ok" true 1 true true).2.entries,
      e'.id = 0 ∧ e'.status = Status.approved ∧ e'.email = "a@x.com") ∧
    isEmailWhitelisted
      (reviewEmailWhitelistRequest (runOps [Op.submit "a@x.com" "" 0])
        0 "approve" 7 "ok" true 1 true true).2 "a@x.com" false = true :=
  approval_side_effect_isolation (runOps [Op.submit "a@x.com" "" 0]) (inv_runOps _)
    0 7 "ok" 1 ⟨0, "a@x.com", Status.pending, "", 0, none, none, ""⟩
    (by decide) (by decide) (by decide) (by decide) "a@x.com" (by decide)

/-- Claim C6: `isEmailWhitelisted` returns true iff the store read does not
throw and the store holds an entry whose email is the normalized input with
status approved; unknown, pending and rejected emails give false, and a
throwing store read gives false instead of propagating. -/
theorem isApproved_iff (s : Store) (hinv : Inv s) (email : String) (readFault : Bool) :
    isEmailWhitelisted s email readFault = true ↔
      (readFault = false ∧
       ∃ e ∈ s.entries, e.email = normalizeEmail email ∧ e.status = Status.approved) := by
  cases readFault with
  | true => simp [isEmailWhitelisted]
  | false =>
    by_cases h0 : email = ""
    · subst h0
      simp only [isEmailWhitelisted, if_pos rfl]
      constructor
      · intro h
        cases h
      · rintro ⟨-, e, he, hem, -⟩
        exact absurd (hem.trans (by decide)) (hinv.2.2.2 e he).1
    · constructor
      · intro h
        simp only [isEmailWhitelisted, if_neg h0] at h
        rw [if_neg Bool.false_ne_true] at h
        refine ⟨rfl, ?_⟩
        obtain ⟨x, hfx⟩ := Option.isSome_iff_exists.mp h
        have hx := List.mem_of_find?_eq_some hfx
        have hpx := List.find?_some hfx
        rw [decide_eq_true_eq] at hpx
        exact ⟨x, hx, hpx.1, hpx.2⟩
      · rintro ⟨-, e, he, hem, happ⟩
        simp only [isEmailWhitelisted, if_neg h0]
        rw [if_neg Bool.false_ne_true]
        exact find?_isSome_of_mem he ⟨hem, happ⟩

/-- Witness for C6 on a store with one approved entry. -/
theorem isApproved_iff_witness :
    isEmailWhitelisted
      (runOps [Op.submit "a@x.com" "" 0, Op.review 0 "approve" 7 "ok" true 1 true false])
      "a@x.com" false = true ↔
      (false = false ∧
       ∃ e ∈ (runOps [Op.submit "a@x.com" "" 0,
           Op.review 0 "approve" 7 "ok" true 1 true false]).entries,
         e.email = normalizeEmail "a@x.com" ∧ e.status = Status.approved) :=
  isApproved_iff
    (runOps [Op.submit "a@x.com" "" 0, Op.review 0 "approve" 7 "ok" true 1 true false])
    (inv_runOps _) "a@x.com" false

/-- Counterexample to claim C8 as stated: a caller may request `limit = 0`;
`Math.min(0, 100) = 0` reaches the query's `limit(0)`, which MongoDB treats
as "no limit", so on a store of 101 entries the handler returns all 101 —
more than 100. -/
theorem list_handler_limit_zero_counterexample :
    (listWhitelistHandler bigStore none 1 0).requests.length = 101 ∧
    ¬ (listWhitelistHandler bigStore none 1 0).requests.length ≤ 100 := by
  constructor <;> decide

/-- Claim C8, amended: for every status filter, page, and requested limit of
at least 1, the `GET /whitelist-requests` handler caps the limit at 100, so
the returned page holds at most 100 entries (a requested limit of 0 instead
hits MongoDB's `limit(0)` = no-limit behavior). -/
theorem list_handler_pagination_bound (s : Store) (status : Option String)
    (page limitReq : Nat) (hpos : 1 ≤ limitReq) :
    (listWhitelistHandler s status page limitReq).requests.length ≤ 100 := by
  have hne : ¬ (min limitReq 100 = 0) := by omega
  simp only [listWhitelistHandler, getEmailWhitelistRequests]
  rw [if_neg hne]
  exact le_trans (List.length_take_le _ _) (min_le_right _ _)

/-- Witness for the amended C8: requesting limit 200 on a 101-entry store
returns a page of at most 100 entries. -/
theorem list_handler_pagination_bound_witness :
    1 ≤ 200 ∧ (listWhitelistHandler bigStore none 1 200).requests.length ≤ 100 :=
  ⟨by decide, list_handler_pagination_bound bigStore none 1 200 (by decide)⟩

/-- Claim C9: registration-gate ordering.  A valid invite always allows
registration, whatever the flags; without an invite, private-beta mode
denies with the invitation-only message; otherwise the request is allowed
exactly when open registration is enabled. -/
theorem registration_gate_order (env : RegEnv) :
    (env.invite = true → validateRegistration env = GateOutcome.allowed) ∧
    (env.invite = false → env.privateBetaMode = true →
      validateRegistration env = GateOutcome.denied
        "Registration is currently by invitation only. Please contact an administrator for access.") ∧
    (env.invite = false → env.privateBetaMode = false →
      (validateRegistration env = GateOutcome.allowed ↔ env.allowRegistration = true)) := by
  obtain ⟨i, p, a⟩ := env
  cases i <;> cases p <;> cases a <;> simp [validateRegistration]

/-- Witness for C9: with private beta on and open registration off, a valid
invite still allows registration. -/
theorem registration_gate_order_witness :
    validateRegistration ⟨true, true, false⟩ = GateOutcome.allowed :=
  (registration_gate_order ⟨true, true, false⟩).1 rfl

/-- Claim C10: the success message of an approval with a truthy
`sendInvitation` always claims "Invitation email sent.", for every
combination of the email-configuration and dispatch-failure oracles — the
message does not depend on whether an invitation email actually went out. -/
theorem approve_message_claims_sent (s : Store) (hinv : Inv s)
    (requestId adminUserId : Nat) (notes : String) (now : Nat) (cfg fl : Bool)
    (e : WhitelistEntry) (he : e ∈ s.entries) (hid : e.id = requestId)
    (hpend : e.status = Status.pending) (hn : notes.length ≤ 1000) :
    (reviewEmailWhitelistRequest s requestId "approve" adminUserId notes true now
        cfg fl).1.success = true ∧
    (reviewEmailWhitelistRequest s requestId "approve" adminUserId notes true now
        cfg fl).1.message =
      "Email whitelist request approved successfully. Invitation email sent." := by
  have hspec := review_pending_spec s hinv requestId "approve" adminUserId notes true now
    cfg fl e he hid hpend hn (Or.inl rfl)
  rw [hspec]
  exact ⟨rfl, rfl⟩

/-- Witness for C10: the message claims dispatch although the email service
is unconfigured and the send would fail. -/
theorem approve_message_claims_sent_witness :
    (reviewEmailWhitelistRequest (runOps [Op.submit "a@x.com" "" 0])
        0 "approve" 7 "ok" true 1 false true).1.success = true ∧
    (reviewEmailWhitelistRequest (runOps [Op.submit "a@x.com" "" 0])
        0 "approve" 7 "ok" true 1 false true).1.message =
      "Email whitelist request approved successfully. Invitation email sent." :=
  approve_message_claims_sent (runOps [Op.submit "a@x.com" "" 0]) (inv_runOps _)
    0 7 "ok" 1 false true ⟨0, "a@x.com", Status.pending, "", 0, none, none, ""⟩
    (by decide) (by decide) (by decide) (by decide)

end EmailWhitelist
